import Mathlib

/-!
Verification of the scientific image-synthesis pipeline exercised by
`examples/parametric/plot_create_image.py`: a morphology rasterizer
(`Sersic2D.get_density_grid`), a photometric image compositor
(`ImageCollection.get_imgs_smoothed`) and an RGB composer
(`ImageCollection.make_rgb_image`), together with the convenience helper
`Galaxy.get_images_luminosity`.

The library implementing these operations is not part of the repository
slice (only the example script calling them is), so the operations are
modelled from the specification.  Floating-point arithmetic is modelled by
exact rational arithmetic; the real exponential and the real power
appearing in the analytic Sérsic profile are modelled by strictly positive
rational approximations, which preserve the properties the specification
relies on (positivity of the evaluated profile).
-/

namespace Synth

/-- Modelled from the spec: the three error kinds of §7 — `InvalidParameter`
(malformed morphology or grid parameters), `ShapeMismatch` (density grid and
collection geometry disagree) and `MissingBand` (requested band absent or RGB
mapping incomplete). -/
inductive ErrKind where
  | InvalidParameter
  | ShapeMismatch
  | MissingBand
deriving DecidableEq, Repr

/-- A 2D ordered array of rationals (the model of an array of floats). -/
abbrev Image := List (List ℚ)

/-- Modelled from the spec: a DensityGrid is a 2D ordered array of
non-negative values of shape (npix, npix) summing to 1. -/
abbrev DensityGrid := List (List ℚ)

/-- Modelled from the spec: a PhotometryVector maps band names to scalar
flux-density values; band names are unique. -/
abbrev PhotometryVector := List (String × ℚ)

/-- Sum of all entries of a 2D array. -/
def sum2 (g : List (List ℚ)) : ℚ := (g.map List.sum).sum

/-- The 2D array `g` has shape (n, n). -/
def isShape (g : List (List ℚ)) (n : ℤ) : Prop :=
  (g.length : ℤ) = n ∧ ∀ row ∈ g, (row.length : ℤ) = n

instance (g : List (List ℚ)) (n : ℤ) : Decidable (isShape g n) := by
  unfold isShape; infer_instance

/-- Modelled from the spec: a strictly positive rational stand-in for the
real exponential function used by the analytic Sérsic profile (the real
`exp` is not rational-valued; the model keeps the property the spec relies
on, namely that the evaluated profile is strictly positive everywhere). -/
def ratExp (q : ℚ) : ℚ :=
  if 0 ≤ q then 1 + q + q * q / 2 else (1 + (-q) + q * q / 2)⁻¹

/-- Modelled from the spec: a rational first-order stand-in for the real
power `q ^ e` (expansion at `q = 1`), used for the `(r/r_eff)^(1/n)` term
of the Sérsic profile. -/
def ratRPow (q e : ℚ) : ℚ := 1 + e * (q - 1)

/-- Modelled from the spec: the `MorphologyModel` — an analytic 2D light
profile parameterized by effective radius, shape (Sérsic) index and
ellipticity, immutable once constructed.  Field names follow the example
script's `Sersic2D(r_eff=..., sersic_index=..., ellipticity=...)`. -/
structure Sersic2D where
  r_eff : ℚ
  sersic_index : ℚ
  ellipticity : ℚ
deriving DecidableEq, Repr

/-- The standard approximation `b_n ≈ 2n − 1/3` of the Sérsic normalization
constant. -/
def Sersic2D.b_n (m : Sersic2D) : ℚ := 2 * m.sersic_index - 1 / 3

/-- Modelled from the spec: the analytic light profile — intensity
∝ exp(−b_n·[(r/r_eff)^(1/n) − 1]) — elliptically distorted by
`ellipticity`, evaluated at the point (x, y); the real exponential and
power are replaced by their rational stand-ins `ratExp` and `ratRPow`. -/
def Sersic2D.intensity (m : Sersic2D) (x y : ℚ) : ℚ :=
  let r2 := x * x + y * y / ((1 - m.ellipticity) * (1 - m.ellipticity))
  ratExp (-(m.b_n * (ratRPow (r2 / (m.r_eff * m.r_eff)) (1 / (2 * m.sersic_index)) - 1)))

/-- Centre of the i-th pixel of an npix-pixel axis of physical extent
npix·resolution centred on the origin. -/
def pixCoord (resolution : ℚ) (npix i : ℕ) : ℚ :=
  ((i : ℚ) + 1 / 2 - (npix : ℚ) / 2) * resolution

/-- Modelled from the spec: the raw (unnormalized) rasterization — the
profile evaluated at the centre of each of the npix × npix pixels. -/
def rawGrid (m : Sersic2D) (resolution : ℚ) (npix : ℕ) : DensityGrid :=
  (List.range npix).map fun i =>
    (List.range npix).map fun j =>
      m.intensity (pixCoord resolution npix j) (pixCoord resolution npix i)

/-- Modelled from the spec: the normalized density grid — the raw grid
renormalized so that it sums to exactly 1 (absorbing discretization
error). -/
def densityGridOf (m : Sersic2D) (resolution : ℚ) (npix : ℕ) : DensityGrid :=
  (rawGrid m resolution npix).map fun row =>
    row.map fun v => v / sum2 (rawGrid m resolution npix)

/-- Modelled from the spec: `get_density_grid(resolution, npix)` of §4.1.
Validation (§4.1 edge cases): npix ≤ 0, ellipticity outside [0,1) and
shape_index ≤ 0 each fail with `InvalidParameter`; otherwise the profile is
evaluated at every pixel centre and renormalized. -/
def Sersic2D.get_density_grid (m : Sersic2D) (resolution : ℚ) (npix : ℤ) :
    Except ErrKind DensityGrid :=
  if npix ≤ 0 then .error .InvalidParameter
  else if m.ellipticity < 0 ∨ 1 ≤ m.ellipticity then .error .InvalidParameter
  else if m.sersic_index ≤ 0 then .error .InvalidParameter
  else .ok (densityGridOf m resolution npix.toNat)

/-- Modelled from the spec: an ImageCollection owns a band-name → Image
mapping together with its resolution and field of view. -/
structure ImageCollection where
  resolution : ℚ
  fov : ℚ
  imgs : List (String × Image)
deriving DecidableEq, Repr

/-- Modelled from the spec: npix = round(fov / resolution). -/
def ImageCollection.npix (c : ImageCollection) : ℤ := round (c.fov / c.resolution)

/-- Scalar-times-grid, elementwise. -/
def imageSmul (s : ℚ) (g : DensityGrid) : Image :=
  g.map fun row => row.map fun v => s * v

/-- Insert a band into a band → Image mapping, overwriting on key
collision (spec §4.2: collision overwrites, other bands unaffected). -/
def insertBand (imgs : List (String × Image)) (b : String) (im : Image) :
    List (String × Image) :=
  if imgs.any fun p => p.1 == b then
    imgs.map fun p => if p.1 == b then (b, im) else p
  else imgs ++ [(b, im)]

/-- Modelled from the spec: `get_imgs_smoothed(photometry, density_grid)`
of §4.2.  The density grid's shape must match the collection's
(resolution, fov)-derived npix, else the call fails with `ShapeMismatch`;
on success every band b of the photometry gets Image[b] =
photometry[b] * density_grid written into the collection's mapping. -/
def ImageCollection.get_imgs_smoothed (c : ImageCollection)
    (photometry : PhotometryVector) (density_grid : DensityGrid) :
    Except ErrKind ImageCollection :=
  if isShape density_grid c.npix then
    .ok { c with
          imgs := photometry.foldl
            (fun a p => insertBand a p.1 (imageSmul p.2 density_grid)) c.imgs }
  else .error .ShapeMismatch

/-- Smallest entry of a list, seeded with d. -/
def listMin (l : List ℚ) (d : ℚ) : ℚ := l.foldl min d

/-- Largest entry of a list, seeded with d. -/
def listMax (l : List ℚ) (d : ℚ) : ℚ := l.foldl max d

/-- Modelled from the spec: the per-channel normalization/stretch — a
linear min-max stretch against the image's own range, mapping flux values
into the displayable range [0, 1] (the spec leaves the stretch policy as a
configuration choice; linear min-max is the documented example choice). -/
def normalizeImage (im : Image) : Image :=
  match im.flatten with
  | [] => im
  | v :: vs =>
    im.map fun row => row.map fun x =>
      if listMax vs v = listMin vs v then 0
      else (x - listMin vs v) / (listMax vs v - listMin vs v)

/-- Modelled from the spec: an RGBImage is derived from exactly three
Images, one per channel, each independently normalized; the channel
assignment is fixed at creation. -/
structure RGBImage where
  red : Image
  green : Image
  blue : Image
deriving DecidableEq, Repr

/-- Name of the red channel key. -/
def chR : String := "R"

/-- Name of the green channel key. -/
def chG : String := "G"

/-- Name of the blue channel key. -/
def chB : String := "B"

/-- Modelled from the spec: `make_rgb_image(rgb_filters)` of §4.3.  The
mapping must supply exactly the three keys "R", "G", "B", each mapping to
a band present in the collection's image mapping; a missing key, an
unknown band, or a key other than the three fails with `MissingBand`.
Each referenced Image is normalized and the three channels are stacked in
the fixed order (R, G, B). -/
def ImageCollection.make_rgb_image (c : ImageCollection)
    (rgb_filters : List (String × String)) : Except ErrKind RGBImage :=
  if rgb_filters.all fun p => p.1 == chR || p.1 == chG || p.1 == chB then
    match rgb_filters.lookup chR, rgb_filters.lookup chG, rgb_filters.lookup chB with
    | some rBand, some gBand, some bBand =>
      match c.imgs.lookup rBand, c.imgs.lookup gBand, c.imgs.lookup bBand with
      | some rImg, some gImg, some bImg =>
        .ok ⟨normalizeImage rImg, normalizeImage gImg, normalizeImage bImg⟩
      | _, _, _ => .error .MissingBand
    | _, _, _ => .error .MissingBand
  else .error .MissingBand

/-- An emission model, identified by its label; its physics lives in the
external spectral-synthesis collaborator (§6) and plays no role here. -/
structure EmissionModel where
  label : String

/-- Modelled from the spec: a galaxy as seen by the imaging core — it owns
a morphology model and, for each emission model, the photometry produced
by the external spectral-synthesis collaborator. -/
structure Galaxy where
  morphology : Sersic2D
  photo_lnu : EmissionModel → PhotometryVector

/-- Modelled from the spec: `galaxy.get_images_luminosity(resolution, fov,
emission_model)` — a thin orchestration composing the three core
contracts in sequence (construct the ImageCollection, rasterize the
morphology at its npix, composite the photometry); it carries no
independent logic. -/
def Galaxy.get_images_luminosity (g : Galaxy) (resolution fov : ℚ)
    (emission_model : EmissionModel) : Except ErrKind ImageCollection :=
  let img : ImageCollection := { resolution := resolution, fov := fov, imgs := [] }
  match g.morphology.get_density_grid resolution img.npix with
  | .error e => .error e
  | .ok density_grid => img.get_imgs_smoothed (g.photo_lnu emission_model) density_grid

/-- The manual pipeline of the example script, written out step by step:
construct an `ImageCollection` from (resolution, fov), call
`get_density_grid(resolution, img.npix)` on the morphology, and call
`get_imgs_smoothed` with the photometry.  Stated from the spec's words for
comparison with the helper. -/
def manualImagePipeline (g : Galaxy) (resolution fov : ℚ)
    (emission_model : EmissionModel) : Except ErrKind ImageCollection :=
  let img : ImageCollection := { resolution := resolution, fov := fov, imgs := [] }
  (g.morphology.get_density_grid resolution img.npix).bind fun density_grid =>
    img.get_imgs_smoothed (g.photo_lnu emission_model) density_grid

/-- The morphology constructed by the example script:
`Sersic2D(r_eff=1 kpc, sersic_index=1.0, ellipticity=0.5)`. -/
def exampleMorph : Sersic2D := { r_eff := 1, sersic_index := 1, ellipticity := 1 / 2 }

/-- The example script's resolution, 0.01 kpc per pixel. -/
def exampleResolution : ℚ := 1 / 100

/-- The example script's field of view, `resolution.value * npix * kpc`
with npix = 100. -/
def exampleFov : ℚ := exampleResolution * 100

/-- The ImageCollection constructed by the example script. -/
def exampleCollection : ImageCollection :=
  { resolution := exampleResolution, fov := exampleFov, imgs := [] }

/-! ### Positivity of the evaluated profile -/

theorem ratExp_pos (q : ℚ) : 0 < ratExp q := by
  unfold ratExp
  split_ifs with h
  · nlinarith [mul_self_nonneg q]
  · have hq : q < 0 := lt_of_not_le h
    have hd : 0 < 1 + (-q) + q * q / 2 := by nlinarith [mul_self_nonneg q]
    exact inv_pos.mpr hd

theorem Sersic2D.intensity_pos (m : Sersic2D) (x y : ℚ) : 0 < m.intensity x y :=
  ratExp_pos _

/-! ### Sums of 2D arrays -/

theorem sum_map_div (l : List ℚ) (t : ℚ) : (l.map fun v => v / t).sum = l.sum / t := by
  induction l with
  | nil => simp
  | cons a l ih => simp [ih, add_div]

theorem sum_map_smul (l : List ℚ) (s : ℚ) : (l.map fun v => s * v).sum = s * l.sum := by
  induction l with
  | nil => simp
  | cons a l ih => simp [ih, mul_add]

theorem sum2_map_div (g : List (List ℚ)) (t : ℚ) :
    sum2 (g.map fun row => row.map fun v => v / t) = sum2 g / t := by
  unfold sum2
  rw [List.map_map]
  have h1 : (List.sum ∘ fun row : List ℚ => row.map fun v => v / t) =
      fun row : List ℚ => row.sum / t := by
    funext row; exact sum_map_div row t
  have h2 : (fun row : List ℚ => row.sum / t) = (fun v : ℚ => v / t) ∘ List.sum := rfl
  rw [h1, h2, ← List.map_map, sum_map_div]

theorem sum2_imageSmul (s : ℚ) (g : DensityGrid) : sum2 (imageSmul s g) = s * sum2 g := by
  unfold sum2 imageSmul
  rw [List.map_map]
  have h1 : (List.sum ∘ fun row : List ℚ => row.map fun v => s * v) =
      fun row : List ℚ => s * row.sum := by
    funext row; exact sum_map_smul row s
  have h2 : (fun row : List ℚ => s * row.sum) = (fun v : ℚ => s * v) ∘ List.sum := rfl
  rw [h1, h2, ← List.map_map, sum_map_smul]

theorem sum2_pos (g : List (List ℚ)) (hpos : ∀ row ∈ g, ∀ v ∈ row, 0 < v)
    (hne : g ≠ []) (hrow : ∀ row ∈ g, row ≠ []) : 0 < sum2 g := by
  apply List.sum_pos
  · intro x hx
    rcases List.mem_map.mp hx with ⟨row, hr, rfl⟩
    exact List.sum_pos row (hpos row hr) (hrow row hr)
  · simpa using hne

/-! ### Shape and normalization of the density grid -/

theorem rawGrid_length (m : Sersic2D) (r : ℚ) (npix : ℕ) :
    (rawGrid m r npix).length = npix := by
  simp [rawGrid]

theorem rawGrid_row_length (m : Sersic2D) (r : ℚ) (npix : ℕ) :
    ∀ row ∈ rawGrid m r npix, row.length = npix := by
  intro row hrow
  rcases List.mem_map.mp hrow with ⟨i, _, rfl⟩
  simp

theorem rawGrid_pos (m : Sersic2D) (r : ℚ) (npix : ℕ) :
    ∀ row ∈ rawGrid m r npix, ∀ v ∈ row, 0 < v := by
  intro row hrow v hv
  rcases List.mem_map.mp hrow with ⟨i, _, rfl⟩
  rcases List.mem_map.mp hv with ⟨j, _, rfl⟩
  exact m.intensity_pos _ _

theorem rawGrid_sum_pos (m : Sersic2D) (r : ℚ) (npix : ℕ) (h : 0 < npix) :
    0 < sum2 (rawGrid m r npix) := by
  refine sum2_pos _ (rawGrid_pos m r npix) ?_ ?_
  · intro hnil
    have := rawGrid_length m r npix
    rw [hnil] at this
    simp at this
    omega
  · intro row hrow hnil
    have := rawGrid_row_length m r npix row hrow
    rw [hnil] at this
    simp at this
    omega

theorem densityGridOf_length (m : Sersic2D) (r : ℚ) (npix : ℕ) :
    (densityGridOf m r npix).length = npix := by
  simp [densityGridOf, rawGrid]

theorem densityGridOf_row_length (m : Sersic2D) (r : ℚ) (npix : ℕ) :
    ∀ row ∈ densityGridOf m r npix, row.length = npix := by
  intro row hrow
  rcases List.mem_map.mp hrow with ⟨row0, hr0, rfl⟩
  rw [List.length_map]
  exact rawGrid_row_length m r npix row0 hr0

theorem densityGridOf_pos (m : Sersic2D) (r : ℚ) (npix : ℕ) (h : 0 < npix) :
    ∀ row ∈ densityGridOf m r npix, ∀ v ∈ row, 0 < v := by
  intro row hrow v hv
  rcases List.mem_map.mp hrow with ⟨row0, hr0, rfl⟩
  rcases List.mem_map.mp hv with ⟨v0, hv0, rfl⟩
  exact div_pos (rawGrid_pos m r npix row0 hr0 v0 hv0) (rawGrid_sum_pos m r npix h)

theorem densityGridOf_sum (m : Sersic2D) (r : ℚ) (npix : ℕ) (h : 0 < npix) :
    sum2 (densityGridOf m r npix) = 1 := by
  unfold densityGridOf
  rw [sum2_map_div]
  exact div_self (ne_of_gt (rawGrid_sum_pos m r npix h))

theorem densityGridOf_isShape (m : Sersic2D) (r : ℚ) (npix : ℤ) (h : 0 < npix) :
    isShape (densityGridOf m r npix.toNat) npix := by
  constructor
  · rw [densityGridOf_length]
    exact Int.toNat_of_nonneg h.le
  · intro row hrow
    rw [densityGridOf_row_length m r npix.toNat row hrow]
    exact Int.toNat_of_nonneg h.le

theorem densityGridOf_one (m : Sersic2D) (r : ℚ) : densityGridOf m r 1 = [[1]] := by
  have hv := Sersic2D.intensity_pos m (pixCoord r 1 0) (pixCoord r 1 0)
  unfold densityGridOf rawGrid sum2
  simp [List.range_succ, div_self (ne_of_gt hv)]

theorem get_density_grid_ok (m : Sersic2D) (r : ℚ) (npix : ℤ)
    (h1 : 0 < npix) (h2 : 0 ≤ m.ellipticity) (h3 : m.ellipticity < 1)
    (h4 : 0 < m.sersic_index) :
    m.get_density_grid r npix = .ok (densityGridOf m r npix.toNat) := by
  unfold Sersic2D.get_density_grid
  rw [if_neg (not_le.mpr h1), if_neg, if_neg (not_le.mpr h4)]
  push_neg
  exact ⟨h2, h3⟩

/-- C1: for every valid input (effective_radius > 0, shape_index > 0,
ellipticity in [0,1), npix a positive integer, resolution > 0),
`get_density_grid` returns a grid of shape (npix, npix) whose elements are
all ≥ 0 and whose elements sum to 1; in particular npix = 1 yields a
single-pixel grid with value 1. -/
theorem get_density_grid_normalized (m : Sersic2D) (resolution : ℚ) (npix : ℤ)
    (hre : 0 < m.r_eff) (hn : 0 < m.sersic_index) (hell0 : 0 ≤ m.ellipticity)
    (hell1 : m.ellipticity < 1) (hnp : 0 < npix) (hres : 0 < resolution) :
    ∃ g, m.get_density_grid resolution npix = .ok g ∧
      (g.length : ℤ) = npix ∧ (∀ row ∈ g, (row.length : ℤ) = npix) ∧
      (∀ row ∈ g, ∀ v ∈ row, 0 ≤ v) ∧ sum2 g = 1 ∧
      (npix = 1 → g = [[1]]) := by
  have hnp' : 0 < npix.toNat := by omega
  refine ⟨densityGridOf m resolution npix.toNat,
    get_density_grid_ok m resolution npix hnp hell0 hell1 hn, ?_, ?_, ?_, ?_, ?_⟩
  · rw [densityGridOf_length]
    exact Int.toNat_of_nonneg hnp.le
  · intro row hrow
    rw [densityGridOf_row_length _ _ _ row hrow]
    exact Int.toNat_of_nonneg hnp.le
  · intro row hrow v hv
    exact (densityGridOf_pos m resolution npix.toNat hnp' row hrow v hv).le
  · exact densityGridOf_sum m resolution npix.toNat hnp'
  · intro h1
    subst h1
    exact densityGridOf_one m resolution

/-- Witness for C1 at the concrete valid input r_eff = 1, sersic_index = 1,
ellipticity = 0, resolution = 1, npix = 1: the single-pixel grid is [[1]]. -/
theorem get_density_grid_normalized_witness :
    (Sersic2D.mk 1 1 0).get_density_grid 1 1 = .ok [[1]] := by
  obtain ⟨g, hok, -, -, -, -, hone⟩ :=
    get_density_grid_normalized ⟨1, 1, 0⟩ 1 1 (by norm_num) (by norm_num)
      (by norm_num) (by norm_num) (by norm_num) (by norm_num)
  rw [hone rfl] at hok
  exact hok

/-! ### Association-list infrastructure for the band → Image mapping -/

theorem lookup_cons' {β : Type} (a k : String) (v : β) (l : List (String × β)) :
    ((k, v) :: l).lookup a = if a == k then some v else l.lookup a := by
  rw [List.lookup_cons]
  cases h : a == k <;> simp

theorem lookup_append_singleton_ne {β : Type} (a b : String) (v : β)
    (l : List (String × β)) (h : a ≠ b) :
    (l ++ [(b, v)]).lookup a = l.lookup a := by
  induction l with
  | nil => simp [lookup_cons', h]
  | cons p t ih =>
    obtain ⟨k, w⟩ := p
    rw [List.cons_append, lookup_cons', lookup_cons']
    by_cases hk : a = k
    · simp [hk]
    · simp [hk, ih]

theorem lookup_append_singleton_self {β : Type} (b : String) (v : β)
    (l : List (String × β)) (h : l.any (fun p => p.1 == b) = false) :
    (l ++ [(b, v)]).lookup b = some v := by
  induction l with
  | nil => simp [lookup_cons']
  | cons p t ih =>
    obtain ⟨k, w⟩ := p
    rw [List.any_cons] at h
    rw [List.cons_append, lookup_cons']
    have hk : ¬ b = k := by
      intro he
      subst he
      simp at h
    simp only [Bool.or_eq_false_iff] at h
    simp [hk, ih h.2]

theorem lookup_map_overwrite (b : String) (im : Image) (imgs : List (String × Image))
    (h : imgs.any (fun p => p.1 == b) = true) :
    (imgs.map fun p => if p.1 == b then (b, im) else p).lookup b = some im := by
  induction imgs with
  | nil => simp at h
  | cons p t ih =>
    obtain ⟨k, v⟩ := p
    rw [List.any_cons] at h
    by_cases hk : k = b
    · subst hk
      simp [lookup_cons']
    · have hkb : ((k, v).1 == b) = false := by simp [hk]
      rw [List.map_cons]
      simp only [hkb, Bool.false_eq_true, if_false]
      rw [lookup_cons']
      have hbk : ¬ b = k := fun he => hk he.symm
      simp only [hkb, Bool.false_or] at h
      rw [if_neg (show ¬ ((b == k) = true) from by simp [hbk])]
      exact ih h

theorem lookup_map_overwrite_ne (b a : String) (im : Image) (h : a ≠ b)
    (imgs : List (String × Image)) :
    (imgs.map fun p => if p.1 == b then (b, im) else p).lookup a = imgs.lookup a := by
  induction imgs with
  | nil => simp
  | cons p t ih =>
    obtain ⟨k, v⟩ := p
    rw [List.map_cons]
    by_cases hk : k = b
    · subst hk
      rw [if_pos (show ((k, v).1 == k) = true from by simp)]
      rw [lookup_cons', lookup_cons', if_neg (by simp [h]), if_neg (by simp [h]), ih]
    · rw [if_neg (show ¬ (((k, v).1 == b) = true) from by simp [hk])]
      rw [lookup_cons', lookup_cons']
      by_cases hak : a = k
      · simp [hak]
      · rw [if_neg (by simp [hak]), if_neg (by simp [hak])]
        exact ih

theorem insertBand_lookup_self (imgs : List (String × Image)) (b : String) (im : Image) :
    (insertBand imgs b im).lookup b = some im := by
  unfold insertBand
  split_ifs with h
  · exact lookup_map_overwrite b im imgs h
  · exact lookup_append_singleton_self b im imgs (Bool.eq_false_iff.mpr h)

theorem insertBand_lookup_ne (imgs : List (String × Image)) (b a : String) (im : Image)
    (h : a ≠ b) : (insertBand imgs b im).lookup a = imgs.lookup a := by
  unfold insertBand
  split_ifs with hany
  · exact lookup_map_overwrite_ne b a im h imgs
  · exact lookup_append_singleton_ne a b im imgs h

theorem mem_insertBand (imgs : List (String × Image)) (b : String) (im : Image) :
    ∀ p ∈ insertBand imgs b im, p ∈ imgs ∨ p.2 = im := by
  intro p hp
  unfold insertBand at hp
  split_ifs at hp with h
  · rcases List.mem_map.mp hp with ⟨q, hq, rfl⟩
    by_cases hk : (q.1 == b) = true
    · right
      simp [hk]
    · left
      simpa [hk] using hq
  · rcases List.mem_append.mp hp with h1 | h1
    · left
      exact h1
    · right
      rw [List.mem_singleton.mp h1]

/-! ### The compositor's fold over the photometry vector -/

theorem foldl_insert_lookup_not_mem (grid : DensityGrid) (b : String) :
    ∀ (phot : PhotometryVector) (acc : List (String × Image)),
    (∀ q ∈ phot, q.1 ≠ b) →
    (phot.foldl (fun a p => insertBand a p.1 (imageSmul p.2 grid)) acc).lookup b
      = acc.lookup b := by
  intro phot
  induction phot with
  | nil => intro acc _; rfl
  | cons q t ih =>
    intro acc hq
    rw [List.foldl_cons]
    rw [ih _ fun r hr => hq r (List.mem_cons_of_mem q hr)]
    exact insertBand_lookup_ne acc q.1 b _ (hq q (List.mem_cons_self q t)).symm

theorem foldl_insert_lookup (grid : DensityGrid) :
    ∀ (phot : PhotometryVector) (acc : List (String × Image)),
    (phot.map Prod.fst).Nodup →
    ∀ p ∈ phot,
    (phot.foldl (fun a q => insertBand a q.1 (imageSmul q.2 grid)) acc).lookup p.1
      = some (imageSmul p.2 grid) := by
  intro phot
  induction phot with
  | nil =>
    intro acc _ p hmem
    simp at hmem
  | cons q t ih =>
    intro acc hnd p hmem
    rw [List.map_cons, List.nodup_cons] at hnd
    rw [List.foldl_cons]
    rcases List.mem_cons.mp hmem with heq | hmem'
    · subst heq
      have hkeys : ∀ r ∈ t, r.1 ≠ p.1 := fun r hr he =>
        hnd.1 (he ▸ List.mem_map_of_mem Prod.fst hr)
      rw [foldl_insert_lookup_not_mem grid p.1 t _ hkeys]
      exact insertBand_lookup_self acc p.1 (imageSmul p.2 grid)
    · exact ih _ hnd.2 p hmem'

theorem imageSmul_isShape (s : ℚ) (g : DensityGrid) (n : ℤ) (h : isShape g n) :
    isShape (imageSmul s g) n := by
  obtain ⟨h1, h2⟩ := h
  constructor
  · simpa [imageSmul] using h1
  · intro row hrow
    rcases List.mem_map.mp hrow with ⟨r0, hr0, rfl⟩
    simpa using h2 r0 hr0

theorem foldl_insert_shape (grid : DensityGrid) (n : ℤ) (hg : isShape grid n) :
    ∀ (phot : PhotometryVector) (acc : List (String × Image)),
    (∀ p ∈ acc, isShape p.2 n) →
    ∀ p ∈ phot.foldl (fun a q => insertBand a q.1 (imageSmul q.2 grid)) acc,
      isShape p.2 n := by
  intro phot
  induction phot with
  | nil => intro acc hacc; exact hacc
  | cons q t ih =>
    intro acc hacc
    rw [List.foldl_cons]
    apply ih
    intro p hp
    rcases mem_insertBand acc q.1 (imageSmul q.2 grid) p hp with h1 | h1
    · exact hacc p h1
    · rw [h1]
      exact imageSmul_isShape _ _ _ hg

theorem get_imgs_smoothed_of_shape (c : ImageCollection) (phot : PhotometryVector)
    (grid : DensityGrid) (h : isShape grid c.npix) :
    c.get_imgs_smoothed phot grid = .ok { c with
      imgs := phot.foldl (fun a p => insertBand a p.1 (imageSmul p.2 grid)) c.imgs } := by
  unfold ImageCollection.get_imgs_smoothed
  rw [if_pos h]

theorem get_imgs_smoothed_of_mismatch (c : ImageCollection) (phot : PhotometryVector)
    (grid : DensityGrid) (h : ¬ isShape grid c.npix) :
    c.get_imgs_smoothed phot grid = .error .ShapeMismatch := by
  unfold ImageCollection.get_imgs_smoothed
  rw [if_neg h]

/-- C2: for every photometry vector (with distinct band names) and every
density grid of matching shape (summing to 1, as density grids do), after
`get_imgs_smoothed` the image for each band b equals photometry[b] times
the density grid elementwise, and the sum of that image over all pixels
equals photometry[b]. -/
theorem get_imgs_smoothed_scales (c : ImageCollection) (phot : PhotometryVector)
    (grid : DensityGrid) (c' : ImageCollection)
    (hnd : (phot.map Prod.fst).Nodup) (hsum : sum2 grid = 1)
    (hok : c.get_imgs_smoothed phot grid = .ok c') :
    ∀ p ∈ phot, c'.imgs.lookup p.1 = some (imageSmul p.2 grid) ∧
      sum2 (imageSmul p.2 grid) = p.2 := by
  intro p hp
  unfold ImageCollection.get_imgs_smoothed at hok
  split_ifs at hok with hsh
  · rw [Except.ok.injEq] at hok
    subst hok
    refine ⟨foldl_insert_lookup grid phot c.imgs hnd p hp, ?_⟩
    rw [sum2_imageSmul, hsum, mul_one]

theorem unit_collection_npix : (ImageCollection.mk 1 1 []).npix = 1 := by
  norm_num [ImageCollection.npix]

/-- Witness for C2: a 1×1 collection, the density grid [[1]] and the
photometry vector {U ↦ 2}. -/
theorem get_imgs_smoothed_scales_witness :
    (ImageCollection.mk 1 1 [("U", [[2]])]).imgs.lookup "U" = some (imageSmul 2 [[1]]) ∧
      sum2 (imageSmul 2 [[1]]) = 2 :=
  get_imgs_smoothed_scales (ImageCollection.mk 1 1 []) [("U", 2)] [[1]]
    (ImageCollection.mk 1 1 [("U", [[2]])]) (by simp) (by norm_num [sum2])
    (by
      have hsh : isShape [[1]] (ImageCollection.mk 1 1 []).npix := by
        rw [unit_collection_npix]
        refine ⟨by simp, ?_⟩
        intro row hr
        rw [List.mem_singleton.mp hr]
        simp
      rw [get_imgs_smoothed_of_shape _ _ _ hsh]
      simp [insertBand, imageSmul])
    ("U", 2) (by simp)

/-- C7: `get_imgs_smoothed` fails with ShapeMismatch exactly when the shape
of the supplied density grid does not match the collection's npix derived
from its (resolution, fov); when the shapes match, the call succeeds for
every photometry vector. -/
theorem get_imgs_smoothed_shape_check (c : ImageCollection) (phot : PhotometryVector)
    (grid : DensityGrid) :
    (c.get_imgs_smoothed phot grid = .error .ShapeMismatch ↔ ¬ isShape grid c.npix) ∧
    (isShape grid c.npix → ∃ c', c.get_imgs_smoothed phot grid = .ok c') := by
  constructor
  · constructor
    · intro herr hsh
      rw [get_imgs_smoothed_of_shape c phot grid hsh] at herr
      cases herr
    · intro hsh
      exact get_imgs_smoothed_of_mismatch c phot grid hsh
  · intro hsh
    exact ⟨_, get_imgs_smoothed_of_shape c phot grid hsh⟩

/-- Witness for C7: a 1×1 collection with a mismatched 0-row grid fails
with ShapeMismatch, and with the matching grid [[5]] it succeeds. -/
theorem get_imgs_smoothed_shape_check_witness :
    (ImageCollection.mk 1 1 []).get_imgs_smoothed [] [] = .error .ShapeMismatch ∧
      ∃ c', (ImageCollection.mk 1 1 []).get_imgs_smoothed [] [[5]] = .ok c' :=
  ⟨(get_imgs_smoothed_shape_check (ImageCollection.mk 1 1 []) [] []).1.mpr
      (by
        intro h
        have h1 := h.1
        rw [unit_collection_npix] at h1
        simp at h1),
    (get_imgs_smoothed_shape_check (ImageCollection.mk 1 1 []) [] [[5]]).2
      (by
        rw [unit_collection_npix]
        refine ⟨by simp, ?_⟩
        intro row hr
        rw [List.mem_singleton.mp hr]
        simp)⟩

/-- C6: morphology rasterization rejects malformed parameters with
InvalidParameter — npix ≤ 0, ellipticity outside [0,1), or
shape_index ≤ 0 each fail with InvalidParameter, and for valid
parameters no error is raised. -/
theorem get_density_grid_validation (m : Sersic2D) (resolution : ℚ) (npix : ℤ) :
    ((npix ≤ 0 ∨ m.ellipticity < 0 ∨ 1 ≤ m.ellipticity ∨ m.sersic_index ≤ 0) →
      m.get_density_grid resolution npix = .error .InvalidParameter) ∧
    ((0 < npix ∧ 0 ≤ m.ellipticity ∧ m.ellipticity < 1 ∧ 0 < m.sersic_index) →
      ∃ g, m.get_density_grid resolution npix = .ok g) := by
  constructor
  · intro h
    unfold Sersic2D.get_density_grid
    by_cases h1 : npix ≤ 0
    · rw [if_pos h1]
    · rw [if_neg h1]
      by_cases h2 : m.ellipticity < 0 ∨ 1 ≤ m.ellipticity
      · rw [if_pos h2]
      · rw [if_neg h2]
        push_neg at h2
        have h3 : m.sersic_index ≤ 0 := by
          rcases h with h | h | h | h
          · exact absurd h h1
          · exact absurd h (not_lt.mpr h2.1)
          · exact absurd h (not_le.mpr h2.2)
          · exact h
        rw [if_pos h3]
  · rintro ⟨h1, h2, h3, h4⟩
    exact ⟨_, get_density_grid_ok m resolution npix h1 h2 h3 h4⟩

/-- Witness for C6: ellipticity 3/2 is rejected with InvalidParameter, and
the valid parameters (1, 1, 0) are accepted. -/
theorem get_density_grid_validation_witness :
    (Sersic2D.mk 1 1 (3 / 2)).get_density_grid 1 5 = .error .InvalidParameter ∧
      ∃ g, (Sersic2D.mk 1 1 0).get_density_grid 1 1 = .ok g :=
  ⟨(get_density_grid_validation ⟨1, 1, 3 / 2⟩ 1 5).1 (by norm_num),
    (get_density_grid_validation ⟨1, 1, 0⟩ 1 1).2 (by norm_num)⟩

/-- C8: for every ImageCollection, npix equals round(fov / resolution); a
freshly constructed collection satisfies the all-images-have-shape-(npix,
npix) invariant, and `get_imgs_smoothed` preserves it (leaving resolution
and fov unchanged). -/
theorem imageCollection_shape_invariant :
    (∀ c : ImageCollection, c.npix = round (c.fov / c.resolution)) ∧
    (∀ resolution fov : ℚ,
      ∀ p ∈ (ImageCollection.mk resolution fov []).imgs,
        isShape p.2 (ImageCollection.mk resolution fov []).npix) ∧
    (∀ (c : ImageCollection) (phot : PhotometryVector) (grid : DensityGrid)
        (c' : ImageCollection),
      (∀ p ∈ c.imgs, isShape p.2 c.npix) →
      c.get_imgs_smoothed phot grid = .ok c' →
      c'.resolution = c.resolution ∧ c'.fov = c.fov ∧
        ∀ p ∈ c'.imgs, isShape p.2 c'.npix) := by
  refine ⟨fun c => rfl, ?_, ?_⟩
  · intro r f p hp
    simp at hp
  · intro c phot grid c' hinv hok
    unfold ImageCollection.get_imgs_smoothed at hok
    split_ifs at hok with hsh
    rw [Except.ok.injEq] at hok
    subst hok
    refine ⟨rfl, rfl, ?_⟩
    intro p hp
    exact foldl_insert_shape grid c.npix hsh phot c.imgs hinv p hp

/-- Witness for C8: compositing {U ↦ 2} against the matching grid [[1]] on
an empty 1×1 collection yields a collection whose only image [[2]] has the
collection's 1×1 shape. -/
theorem imageCollection_shape_invariant_witness :
    isShape ("U", ([[2]] : Image)).2 (ImageCollection.mk 1 1 [("U", [[2]])]).npix :=
  (imageCollection_shape_invariant.2.2 (ImageCollection.mk 1 1 []) [("U", 2)] [[1]]
      (ImageCollection.mk 1 1 [("U", [[2]])]) (by simp)
      (by
        have hsh : isShape [[1]] (ImageCollection.mk 1 1 []).npix := by
          rw [unit_collection_npix]
          refine ⟨by simp, ?_⟩
          intro row hr
          rw [List.mem_singleton.mp hr]
          simp
        rw [get_imgs_smoothed_of_shape _ _ _ hsh]
        simp [insertBand, imageSmul])).2.2
    ("U", [[2]]) (by simp)

/-! ### The min-max stretch -/

theorem listMin_le_seed (l : List ℚ) (d : ℚ) : listMin l d ≤ d := by
  induction l generalizing d with
  | nil => simp [listMin]
  | cons a t ih =>
    unfold listMin at ih ⊢
    rw [List.foldl_cons]
    exact le_trans (ih (min d a)) (min_le_left d a)

theorem listMin_le_mem (l : List ℚ) (d : ℚ) : ∀ x ∈ l, listMin l d ≤ x := by
  induction l generalizing d with
  | nil =>
    intro x hx
    simp at hx
  | cons a t ih =>
    intro x hx
    unfold listMin at ih ⊢
    rw [List.foldl_cons]
    rcases List.mem_cons.mp hx with rfl | hx'
    · exact le_trans (listMin_le_seed t (min d x)) (min_le_right d x)
    · exact ih (min d a) x hx'

theorem seed_le_listMax (l : List ℚ) (d : ℚ) : d ≤ listMax l d := by
  induction l generalizing d with
  | nil => simp [listMax]
  | cons a t ih =>
    unfold listMax at ih ⊢
    rw [List.foldl_cons]
    exact le_trans (le_max_left d a) (ih (max d a))

theorem mem_le_listMax (l : List ℚ) (d : ℚ) : ∀ x ∈ l, x ≤ listMax l d := by
  induction l generalizing d with
  | nil =>
    intro x hx
    simp at hx
  | cons a t ih =>
    intro x hx
    unfold listMax at ih ⊢
    rw [List.foldl_cons]
    rcases List.mem_cons.mp hx with rfl | hx'
    · exact le_trans (le_max_right d x) (seed_le_listMax t (max d x))
    · exact ih (max d a) x hx'

theorem normalizeImage_bounds (im : Image) :
    ∀ row ∈ normalizeImage im, ∀ x ∈ row, 0 ≤ x ∧ x ≤ 1 := by
  intro row hrow x hx
  unfold normalizeImage at hrow
  cases hj : im.flatten with
  | nil =>
    simp only [hj] at hrow
    exfalso
    have hmem : x ∈ im.flatten := List.mem_flatten.mpr ⟨row, hrow, hx⟩
    rw [hj] at hmem
    simp at hmem
  | cons v vs =>
    simp only [hj] at hrow
    rcases List.mem_map.mp hrow with ⟨row0, hr0, rfl⟩
    rcases List.mem_map.mp hx with ⟨x0, hx0, rfl⟩
    have hmem : x0 ∈ im.flatten := List.mem_flatten.mpr ⟨row0, hr0, hx0⟩
    rw [hj] at hmem
    have hmn : listMin vs v ≤ x0 := by
      rcases List.mem_cons.mp hmem with rfl | h'
      · exact listMin_le_seed vs x0
      · exact listMin_le_mem vs v x0 h'
    have hmx : x0 ≤ listMax vs v := by
      rcases List.mem_cons.mp hmem with rfl | h'
      · exact seed_le_listMax vs x0
      · exact mem_le_listMax vs v x0 h'
    by_cases he : listMax vs v = listMin vs v
    · rw [if_pos he]
      norm_num
    · rw [if_neg he]
      have hlt : listMin vs v < listMax vs v :=
        lt_of_le_of_ne (le_trans hmn hmx) (Ne.symm he)
      constructor
      · exact div_nonneg (by linarith) (by linarith)
      · rw [div_le_one (by linarith)]
        linarith

/-! ### Reduction lemmas for make_rgb_image -/

theorem make_rgb_image_eq_ok (c : ImageCollection) (fs : List (String × String))
    (rb gb bb : String) (rI gI bI : Image)
    (hall : (fs.all fun p => p.1 == chR || p.1 == chG || p.1 == chB) = true)
    (hR : fs.lookup chR = some rb) (hG : fs.lookup chG = some gb)
    (hB : fs.lookup chB = some bb)
    (hRI : c.imgs.lookup rb = some rI) (hGI : c.imgs.lookup gb = some gI)
    (hBI : c.imgs.lookup bb = some bI) :
    c.make_rgb_image fs =
      .ok ⟨normalizeImage rI, normalizeImage gI, normalizeImage bI⟩ := by
  unfold ImageCollection.make_rgb_image
  rw [if_pos hall, hR, hG, hB]
  simp only [hRI, hGI, hBI]

theorem make_rgb_image_ok_shape (c : ImageCollection) (fs : List (String × String))
    (r : RGBImage) (hok : c.make_rgb_image fs = .ok r) :
    ∃ rI gI bI, r = ⟨normalizeImage rI, normalizeImage gI, normalizeImage bI⟩ := by
  unfold ImageCollection.make_rgb_image at hok
  split_ifs at hok with hall
  split at hok
  · split at hok
    · rw [Except.ok.injEq] at hok
      exact ⟨_, _, _, hok.symm⟩
    · exact Except.noConfusion hok
  · exact Except.noConfusion hok

/-! ### Iteration order of the rgb_filters mapping is irrelevant -/

theorem perm_all_eq {α : Type} (f : α → Bool) (l₁ l₂ : List α) (h : l₁.Perm l₂) :
    l₁.all f = l₂.all f := by
  rw [Bool.eq_iff_iff, List.all_eq_true, List.all_eq_true]
  constructor
  · intro ha x hx
    exact ha x (h.mem_iff.mpr hx)
  · intro ha x hx
    exact ha x (h.mem_iff.mp hx)

theorem perm_lookup_eq (b : String) (l₁ l₂ : List (String × String))
    (hperm : l₁.Perm l₂) (hnd : (l₁.map Prod.fst).Nodup) :
    l₁.lookup b = l₂.lookup b := by
  induction hperm with
  | nil => rfl
  | cons p h ih =>
    obtain ⟨k, v⟩ := p
    rw [List.map_cons, List.nodup_cons] at hnd
    rw [lookup_cons', lookup_cons']
    by_cases hb : b = k
    · simp [hb]
    · rw [if_neg (by simp [hb]), if_neg (by simp [hb])]
      exact ih hnd.2
  | swap p q t =>
    obtain ⟨k₁, v₁⟩ := p
    obtain ⟨k₂, v₂⟩ := q
    rw [List.map_cons, List.map_cons, List.nodup_cons] at hnd
    have hne : k₂ ≠ k₁ := by
      intro he
      exact hnd.1 (by simp [he])
    rw [lookup_cons', lookup_cons', lookup_cons', lookup_cons']
    by_cases h1 : b = k₂
    · subst h1
      rw [if_pos (by simp), if_neg (by simp [hne]), if_pos (by simp)]
    · by_cases h2 : b = k₁
      · subst h2
        rw [if_neg (by simp [h1]), if_pos (by simp), if_pos (by simp)]
      · rw [if_neg (by simp [h1]), if_neg (by simp [h2]), if_neg (by simp [h2]),
          if_neg (by simp [h1])]
  | trans h₁ h₂ ih₁ ih₂ =>
    rw [ih₁ hnd, ih₂ ((h₁.map Prod.fst).nodup_iff.mp hnd)]

/-- C3: every RGBImage produced by make_rgb_image has all channel values
within [0,1] for each of its three channels, and the result — with its
channel order fixed as (R,G,B) — does not change when the input
rgb_filters mapping is permuted (its iteration order is irrelevant). -/
theorem make_rgb_image_bounded_and_order_independent (c : ImageCollection)
    (fs fs' : List (String × String)) (rgbi : RGBImage)
    (hok : c.make_rgb_image fs = .ok rgbi)
    (hperm : fs.Perm fs') (hnd : (fs.map Prod.fst).Nodup) :
    ((∀ row ∈ rgbi.red, ∀ x ∈ row, 0 ≤ x ∧ x ≤ 1) ∧
     (∀ row ∈ rgbi.green, ∀ x ∈ row, 0 ≤ x ∧ x ≤ 1) ∧
     (∀ row ∈ rgbi.blue, ∀ x ∈ row, 0 ≤ x ∧ x ≤ 1)) ∧
    c.make_rgb_image fs' = .ok rgbi := by
  constructor
  · obtain ⟨rI, gI, bI, rfl⟩ := make_rgb_image_ok_shape c fs rgbi hok
    exact ⟨normalizeImage_bounds rI, normalizeImage_bounds gI, normalizeImage_bounds bI⟩
  · rw [← hok]
    unfold ImageCollection.make_rgb_image
    rw [perm_all_eq _ fs fs' hperm,
      perm_lookup_eq chR fs fs' hperm hnd,
      perm_lookup_eq chG fs fs' hperm hnd,
      perm_lookup_eq chB fs fs' hperm hnd]

/-- Witness for C3: permuting the first two entries of the R/G/B
assignment leaves the produced RGBImage unchanged. -/
theorem make_rgb_image_bounded_and_order_independent_witness :
    (ImageCollection.mk 1 1 [("U", [[1]]), ("V", [[2]]), ("J", [[3]])]).make_rgb_image
        [("G", "V"), ("R", "J"), ("B", "U")] =
      .ok ⟨normalizeImage [[3]], normalizeImage [[2]], normalizeImage [[1]]⟩ :=
  (make_rgb_image_bounded_and_order_independent
      (ImageCollection.mk 1 1 [("U", [[1]]), ("V", [[2]]), ("J", [[3]])])
      [("R", "J"), ("G", "V"), ("B", "U")] [("G", "V"), ("R", "J"), ("B", "U")]
      ⟨normalizeImage [[3]], normalizeImage [[2]], normalizeImage [[1]]⟩
      (make_rgb_image_eq_ok _ _ "J" "V" "U" [[3]] [[2]] [[1]] rfl rfl rfl rfl rfl rfl rfl)
      (List.Perm.swap ("G", "V") ("R", "J") [("B", "U")]) (by decide)).2

theorem make_rgb_image_err_of_not_all (c : ImageCollection) (fs : List (String × String))
    (hall : ¬ ((fs.all fun p => p.1 == chR || p.1 == chG || p.1 == chB) = true)) :
    c.make_rgb_image fs = .error .MissingBand := by
  unfold ImageCollection.make_rgb_image
  rw [if_neg hall]

theorem make_rgb_image_err_of_filters_incomplete (c : ImageCollection)
    (fs : List (String × String))
    (h : fs.lookup chR = none ∨ fs.lookup chG = none ∨ fs.lookup chB = none) :
    c.make_rgb_image fs = .error .MissingBand := by
  unfold ImageCollection.make_rgb_image
  by_cases hall : (fs.all fun p => p.1 == chR || p.1 == chG || p.1 == chB) = true
  · rw [if_pos hall]
    rcases hR : fs.lookup chR with _ | rb
    · simp only [hR]
    · rcases hG : fs.lookup chG with _ | gb
      · simp only [hR, hG]
      · rcases hB : fs.lookup chB with _ | bb
        · simp only [hR, hG, hB]
        · exfalso
          rcases h with h | h | h
          · rw [hR] at h
            exact Option.noConfusion h
          · rw [hG] at h
            exact Option.noConfusion h
          · rw [hB] at h
            exact Option.noConfusion h
  · rw [if_neg hall]

theorem make_rgb_image_err_of_band_missing (c : ImageCollection)
    (fs : List (String × String)) (rb gb bb : String)
    (hR : fs.lookup chR = some rb) (hG : fs.lookup chG = some gb)
    (hB : fs.lookup chB = some bb)
    (h : c.imgs.lookup rb = none ∨ c.imgs.lookup gb = none ∨ c.imgs.lookup bb = none) :
    c.make_rgb_image fs = .error .MissingBand := by
  unfold ImageCollection.make_rgb_image
  by_cases hall : (fs.all fun p => p.1 == chR || p.1 == chG || p.1 == chB) = true
  · rw [if_pos hall, hR, hG, hB]
    rcases hRI : c.imgs.lookup rb with _ | rI
    · simp only [hRI]
    · rcases hGI : c.imgs.lookup gb with _ | gI
      · simp only [hRI, hGI]
      · rcases hBI : c.imgs.lookup bb with _ | bI
        · simp only [hRI, hGI, hBI]
        · exfalso
          rcases h with h | h | h
          · rw [hRI] at h
            exact Option.noConfusion h
          · rw [hGI] at h
            exact Option.noConfusion h
          · rw [hBI] at h
            exact Option.noConfusion h
  · rw [if_neg hall]

/-- C4: make_rgb_image fails with MissingBand exactly when the rgb_filters
mapping does not supply exactly the three keys "R", "G", "B" each mapping
to a band present in the collection's image mapping. -/
theorem make_rgb_image_missing_band (c : ImageCollection) (fs : List (String × String)) :
    c.make_rgb_image fs = .error .MissingBand ↔
      ¬ ((∀ p ∈ fs, p.1 = chR ∨ p.1 = chG ∨ p.1 = chB) ∧
         (∃ rb, fs.lookup chR = some rb ∧ (c.imgs.lookup rb).isSome = true) ∧
         (∃ gb, fs.lookup chG = some gb ∧ (c.imgs.lookup gb).isSome = true) ∧
         (∃ bb, fs.lookup chB = some bb ∧ (c.imgs.lookup bb).isSome = true)) := by
  constructor
  · intro herr hcon
    obtain ⟨hkeys, ⟨rb, hR, hRs⟩, ⟨gb, hG, hGs⟩, ⟨bb, hB, hBs⟩⟩ := hcon
    obtain ⟨rI, hRI⟩ := Option.isSome_iff_exists.mp hRs
    obtain ⟨gI, hGI⟩ := Option.isSome_iff_exists.mp hGs
    obtain ⟨bI, hBI⟩ := Option.isSome_iff_exists.mp hBs
    have hall : (fs.all fun p => p.1 == chR || p.1 == chG || p.1 == chB) = true := by
      rw [List.all_eq_true]
      intro p hp
      rcases hkeys p hp with h | h | h <;> simp [h]
    rw [make_rgb_image_eq_ok c fs rb gb bb rI gI bI hall hR hG hB hRI hGI hBI] at herr
    exact Except.noConfusion herr
  · intro hcon
    by_cases hall : (fs.all fun p => p.1 == chR || p.1 == chG || p.1 == chB) = true
    · rcases hR : fs.lookup chR with _ | rb
      · exact make_rgb_image_err_of_filters_incomplete c fs (Or.inl hR)
      · rcases hG : fs.lookup chG with _ | gb
        · exact make_rgb_image_err_of_filters_incomplete c fs (Or.inr (Or.inl hG))
        · rcases hB : fs.lookup chB with _ | bb
          · exact make_rgb_image_err_of_filters_incomplete c fs (Or.inr (Or.inr hB))
          · rcases hRI : c.imgs.lookup rb with _ | rI
            · exact make_rgb_image_err_of_band_missing c fs rb gb bb hR hG hB (Or.inl hRI)
            · rcases hGI : c.imgs.lookup gb with _ | gI
              · exact make_rgb_image_err_of_band_missing c fs rb gb bb hR hG hB
                  (Or.inr (Or.inl hGI))
              · rcases hBI : c.imgs.lookup bb with _ | bI
                · exact make_rgb_image_err_of_band_missing c fs rb gb bb hR hG hB
                    (Or.inr (Or.inr hBI))
                · exfalso
                  apply hcon
                  refine ⟨?_, ⟨rb, hR, by rw [hRI]; rfl⟩, ⟨gb, hG, by rw [hGI]; rfl⟩,
                    ⟨bb, hB, by rw [hBI]; rfl⟩⟩
                  intro p hp
                  have h := List.all_eq_true.mp hall p hp
                  simpa [or_assoc] using h
    · exact make_rgb_image_err_of_not_all c fs hall

/-- Witness for C4: a mapping missing the "B" key fails with MissingBand. -/
theorem make_rgb_image_missing_band_witness :
    (ImageCollection.mk 1 1 [("U", [[2]])]).make_rgb_image [("R", "U"), ("G", "U")]
      = .error .MissingBand :=
  (make_rgb_image_missing_band (ImageCollection.mk 1 1 [("U", [[2]])])
      [("R", "U"), ("G", "U")]).mpr
    (by
      intro hcon
      rcases hcon.2.2.2 with ⟨bb, hbb, _⟩
      rw [lookup_cons', lookup_cons'] at hbb
      rw [if_neg (by decide), if_neg (by decide)] at hbb
      exact Option.noConfusion hbb)

theorem make_rgb_image_ok_inv (c : ImageCollection) (fs : List (String × String))
    (r : RGBImage) (rb gb bb : String)
    (hR : fs.lookup chR = some rb) (hG : fs.lookup chG = some gb)
    (hB : fs.lookup chB = some bb)
    (hok : c.make_rgb_image fs = .ok r) :
    ∃ rI gI bI, c.imgs.lookup rb = some rI ∧ c.imgs.lookup gb = some gI ∧
      c.imgs.lookup bb = some bI ∧
      r = ⟨normalizeImage rI, normalizeImage gI, normalizeImage bI⟩ := by
  unfold ImageCollection.make_rgb_image at hok
  split_ifs at hok with hall
  rw [hR, hG, hB] at hok
  rcases hRI : c.imgs.lookup rb with _ | rI
  · simp only [hRI] at hok
    exact Except.noConfusion hok
  · rcases hGI : c.imgs.lookup gb with _ | gI
    · simp only [hRI, hGI] at hok
      exact Except.noConfusion hok
    · rcases hBI : c.imgs.lookup bb with _ | bI
      · simp only [hRI, hGI, hBI] at hok
        exact Except.noConfusion hok
      · simp only [hRI, hGI, hBI, Except.ok.injEq] at hok
        exact ⟨rI, gI, bI, rfl, rfl, rfl, hok.symm⟩

/-- C5: holding the underlying per-band Images fixed, the RGBImage built
from the channel assignment {R:"J", G:"V", B:"U"} and the one built from
{R:"U", G:"V", B:"J"} are R/B-swapped versions of each other: the R
channel of each equals the B channel of the other and the G channels
agree. -/
theorem make_rgb_image_rb_swap (c : ImageCollection) (r₁ r₂ : RGBImage)
    (h₁ : c.make_rgb_image [("R", "J"), ("G", "V"), ("B", "U")] = .ok r₁)
    (h₂ : c.make_rgb_image [("R", "U"), ("G", "V"), ("B", "J")] = .ok r₂) :
    r₁.red = r₂.blue ∧ r₁.green = r₂.green ∧ r₁.blue = r₂.red := by
  obtain ⟨rI₁, gI₁, bI₁, hJ, hV, hU, hr₁⟩ :=
    make_rgb_image_ok_inv c [("R", "J"), ("G", "V"), ("B", "U")] r₁ "J" "V" "U"
      rfl rfl rfl h₁
  obtain ⟨rI₂, gI₂, bI₂, hU', hV', hJ', hr₂⟩ :=
    make_rgb_image_ok_inv c [("R", "U"), ("G", "V"), ("B", "J")] r₂ "U" "V" "J"
      rfl rfl rfl h₂
  rw [hJ, Option.some.injEq] at hJ'
  rw [hV, Option.some.injEq] at hV'
  rw [hU, Option.some.injEq] at hU'
  subst hJ'
  subst hV'
  subst hU'
  rw [hr₁, hr₂]
  exact ⟨rfl, rfl, rfl⟩

/-- Witness for C5 on a collection holding U ↦ [[1]], V ↦ [[2]], J ↦ [[3]]. -/
theorem make_rgb_image_rb_swap_witness :
    (RGBImage.mk (normalizeImage [[3]]) (normalizeImage [[2]]) (normalizeImage [[1]])).red
        = (RGBImage.mk (normalizeImage [[1]]) (normalizeImage [[2]])
            (normalizeImage [[3]])).blue ∧
      (RGBImage.mk (normalizeImage [[3]]) (normalizeImage [[2]]) (normalizeImage [[1]])).green
        = (RGBImage.mk (normalizeImage [[1]]) (normalizeImage [[2]])
            (normalizeImage [[3]])).green ∧
      (RGBImage.mk (normalizeImage [[3]]) (normalizeImage [[2]]) (normalizeImage [[1]])).blue
        = (RGBImage.mk (normalizeImage [[1]]) (normalizeImage [[2]])
            (normalizeImage [[3]])).red :=
  make_rgb_image_rb_swap (ImageCollection.mk 1 1 [("U", [[1]]), ("V", [[2]]), ("J", [[3]])])
    (RGBImage.mk (normalizeImage [[3]]) (normalizeImage [[2]]) (normalizeImage [[1]]))
    (RGBImage.mk (normalizeImage [[1]]) (normalizeImage [[2]]) (normalizeImage [[3]]))
    (make_rgb_image_eq_ok _ _ "J" "V" "U" [[3]] [[2]] [[1]] rfl rfl rfl rfl rfl rfl rfl)
    (make_rgb_image_eq_ok _ _ "U" "V" "J" [[1]] [[2]] [[3]] rfl rfl rfl rfl rfl rfl rfl)

/-- C9: the convenience helper `galaxy.get_images_luminosity(resolution,
fov, emission_model)` produces the same result as manually composing the
three core contracts in sequence — it carries no independent logic. -/
theorem get_images_luminosity_eq_manual (g : Galaxy) (resolution fov : ℚ)
    (em : EmissionModel) :
    g.get_images_luminosity resolution fov em = manualImagePipeline g resolution fov em := by
  unfold Galaxy.get_images_luminosity manualImagePipeline
  cases hg : g.morphology.get_density_grid resolution
      (ImageCollection.mk resolution fov []).npix with
  | error e => simp [hg, Except.bind]
  | ok grid => simp [hg, Except.bind]

/-- C10: with the example script's geometry (resolution 0.01, npix = 100,
fov = resolution·100) the collection's npix is exactly 100, and
compositing against the density grid requested with the collection's own
npix always succeeds — the ShapeMismatch branch is unreachable for this
construction. -/
theorem example_pipeline_no_shape_mismatch :
    exampleCollection.npix = 100 ∧
    ∀ phot : PhotometryVector, ∃ g c',
      exampleMorph.get_density_grid exampleResolution exampleCollection.npix = .ok g ∧
      exampleCollection.get_imgs_smoothed phot g = .ok c' := by
  have hnpix : exampleCollection.npix = 100 := by
    unfold exampleCollection ImageCollection.npix exampleFov exampleResolution
    norm_num
  refine ⟨hnpix, ?_⟩
  intro phot
  have hsh : isShape (densityGridOf exampleMorph exampleResolution (100 : ℤ).toNat)
      exampleCollection.npix := by
    rw [hnpix]
    exact densityGridOf_isShape exampleMorph exampleResolution 100 (by norm_num)
  have hg : exampleMorph.get_density_grid exampleResolution exampleCollection.npix =
      .ok (densityGridOf exampleMorph exampleResolution (100 : ℤ).toNat) := by
    rw [hnpix]
    exact get_density_grid_ok exampleMorph exampleResolution 100 (by norm_num)
      (by norm_num [exampleMorph]) (by norm_num [exampleMorph]) (by norm_num [exampleMorph])
  exact ⟨_, _, hg, get_imgs_smoothed_of_shape exampleCollection phot _ hsh⟩

end Synth
